import Mathlib

/-!
# Verification of the configuration component of kindle2markdown

This file gives a shallow embedding of `config_manager.py` (class
`ConfigManager`) and proves / refutes the frozen claims about it.

Modelling conventions:
* Python/JSON values are modelled by `JValue`; Python `dict`s become
  association lists (`List (String × JValue)`), which in well-formed
  documents have pairwise distinct keys (`wfValue`).
* Python exceptions are modelled by `Option`/`Except`: a partial
  operation returns `none` / `.error ()` exactly when the Python code
  raises an uncaught exception.
* The filesystem is abstracted: a config file is a `FileData`
  (absent / unreadable / malformed JSON / parsed JSON value), and
  `os.path.exists` is an oracle `String → Bool`.  `Path.home()/ "Desktop"`
  is an abstract string parameter `home`.
* `str.split('.')` and `"\n".join` are modelled by `splitDots` / `pyJoin`,
  which implement exactly the Python semantics used by the source.
-/

set_option autoImplicit false

/-- A JSON-shaped Python value (`None`, `bool`, `int`, `str`, `list`, `dict`). -/
inductive JValue where
  | null
  | bool (b : Bool)
  | num (n : Int)
  | str (s : String)
  | arr (elems : List JValue)
  | obj (fields : List (String × JValue))

mutual

/-- Structural equality test on `JValue`. -/
def beqVal : JValue → JValue → Bool
  | .null, .null => true
  | .bool a, .bool b => a = b
  | .num a, .num b => a = b
  | .str a, .str b => a = b
  | .arr xs, .arr ys => beqValList xs ys
  | .obj fs, .obj gs => beqValFields fs gs
  | _, _ => false

/-- Structural equality test on lists of `JValue`. -/
def beqValList : List JValue → List JValue → Bool
  | [], [] => true
  | x :: xs, y :: ys => beqVal x y && beqValList xs ys
  | _, _ => false

/-- Structural equality test on field lists. -/
def beqValFields : List (String × JValue) → List (String × JValue) → Bool
  | [], [] => true
  | (k, v) :: fs, (k', v') :: gs => k = k' && beqVal v v' && beqValFields fs gs
  | _, _ => false

end

mutual

theorem beqVal_correct : ∀ a b : JValue, beqVal a b = true ↔ a = b
  | .null, b => by cases b <;> simp [beqVal]
  | .bool a, b => by cases b <;> simp [beqVal]
  | .num a, b => by cases b <;> simp [beqVal]
  | .str a, b => by cases b <;> simp [beqVal]
  | .arr xs, b => by
    cases b <;> simp [beqVal]
    exact beqValList_correct xs _
  | .obj fs, b => by
    cases b <;> simp [beqVal]
    exact beqValFields_correct fs _

theorem beqValList_correct : ∀ xs ys : List JValue, beqValList xs ys = true ↔ xs = ys
  | [], ys => by cases ys <;> simp [beqValList]
  | x :: xs, ys => by
    cases ys with
    | nil => simp [beqValList]
    | cons y ys =>
      simp only [beqValList, Bool.and_eq_true, beqVal_correct x y,
        beqValList_correct xs ys, List.cons.injEq]

theorem beqValFields_correct :
    ∀ fs gs : List (String × JValue), beqValFields fs gs = true ↔ fs = gs
  | [], gs => by cases gs <;> simp [beqValFields]
  | (k, v) :: fs, gs => by
    cases gs with
    | nil => simp [beqValFields]
    | cons g gs =>
      obtain ⟨k', v'⟩ := g
      simp only [beqValFields, Bool.and_eq_true, decide_eq_true_eq,
        beqVal_correct v v', beqValFields_correct fs gs, List.cons.injEq,
        Prod.mk.injEq]

end

instance : DecidableEq JValue := fun a b =>
  decidable_of_iff (beqVal a b = true) (beqVal_correct a b)

namespace JValue

/-- Python `d[k]` lookup in a dict modelled as an association list
(first binding wins; well-formed documents have distinct keys). -/
def lookupField : List (String × JValue) → String → Option JValue
  | [], _ => none
  | (k', v') :: rest, k => if k' = k then some v' else lookupField rest k

/-- Python `d[k] = v` assignment in a dict: replaces the binding in place
if the key is present, otherwise appends it. -/
def insertField : List (String × JValue) → String → JValue → List (String × JValue)
  | [], k, v => [(k, v)]
  | (k', v') :: rest, k, v =>
    if k' = k then (k, v) :: rest else (k', v') :: insertField rest k v

/-- Python truthiness (`if value:`) for the modelled values. -/
def truthy : JValue → Bool
  | .null => false
  | .bool b => b
  | .num n => n != 0
  | .str s => s != ""
  | .arr xs => !xs.isEmpty
  | .obj fs => !fs.isEmpty

/-- Is the value a mapping (`isinstance(value, dict)`)? -/
def isObj : JValue → Bool
  | .obj _ => true
  | _ => false

end JValue

open JValue

/-- Spec-side path lookup: follow the keys through nested mappings,
`none` when a key is absent or a non-mapping is indexed.  A found value
(including `null`) is reported as `some`. -/
def getPath : JValue → List String → Option JValue
  | v, [] => some v
  | .obj fields, k :: rest =>
    match lookupField fields k with
    | some v => getPath v rest
    | none => none
  | _, _ :: _ => none

/-- A dotted path is present in a document (regardless of its value). -/
def hasPath (v : JValue) (p : List String) : Bool :=
  (getPath v p).isSome

/-- Spec-side lookup of a *present and non-null* value at a path. -/
def specLookup (v : JValue) (p : List String) : Option JValue :=
  match getPath v p with
  | some w => if w = .null then none else some w
  | none => none

/-- Model of Python's `key_path.split('.')` (split on every dot; `""`
splits to `[""]`, a trailing dot yields a trailing empty component). -/
def splitDotsCore : List Char → List (List Char)
  | [] => [[]]
  | c :: cs =>
    if c = '.' then [] :: splitDotsCore cs
    else
      match splitDotsCore cs with
      | [] => [[c]]
      | l :: ls => (c :: l) :: ls

/-- Python `key_path.split('.')` on strings. -/
def splitDots (s : String) : List String :=
  (splitDotsCore s.data).map fun l => ⟨l⟩

/-- Embedding of `ConfigManager._get_nested_value`: walk the keys,
returning `None` (`JValue.null`) when a `KeyError`/`TypeError` is caught. -/
def getNestedValue : JValue → List String → JValue
  | v, [] => v
  | .obj fields, k :: rest =>
    match lookupField fields k with
    | some v => getNestedValue v rest
    | none => .null
  | _, _ :: _ => .null

/-- Embedding of `ConfigManager._set_nested_value`.  Returns `none` when
the Python code raises an uncaught `TypeError` (walking into, or
assigning into, a value that is not a dict) or `IndexError` (empty key
list, impossible for the output of `split('.')`). -/
def setNestedValue : JValue → List String → JValue → Option JValue
  | config, [k], value =>
    match config with
    | .obj fields => some (.obj (insertField fields k value))
    | _ => none
  | config, k :: k' :: rest, value =>
    match config with
    | .obj fields =>
      match lookupField fields k with
      | some v =>
        (setNestedValue v (k' :: rest) value).map fun v' =>
          .obj (insertField fields k v')
      | none =>
        (setNestedValue (.obj []) (k' :: rest) value).map fun v' =>
          .obj (insertField fields k v')
    | _ => none
  | _, [], _ => none

/-- The condition under which `_set_nested_value` completes without an
exception: each intermediate key is either absent (a fresh `{}` is
created) or maps to a mapping, and the final container is a mapping. -/
def pathOk : JValue → List String → Bool
  | config, [_] => config.isObj
  | config, k :: k' :: rest =>
    match config with
    | .obj fields =>
      match lookupField fields k with
      | some v => pathOk v (k' :: rest)
      | none => true
    | _ => false
  | _, [] => false

mutual

/-- Embedding of `ConfigManager._merge_configs` on the field lists of
the two dicts: iterate over the user's items; where both sides hold
dicts, merge recursively, otherwise the user's value replaces the
default's. -/
def mergeFields : List (String × JValue) → List (String × JValue) → List (String × JValue)
  | df, [] => df
  | df, (k, v) :: rest =>
    let newVal :=
      match lookupField df k with
      | some dv => mergeInto dv v
      | none => v
    mergeFields (insertField df k newVal) rest

/-- The per-key combination of `_merge_configs`: recurse when
`isinstance(result[key], dict) and isinstance(value, dict)`, otherwise
take the user's value. -/
def mergeInto : JValue → JValue → JValue
  | .obj d2, .obj u2 => .obj (mergeFields d2 u2)
  | _, u => u

end

/-- The value stored for one user key by `_merge_configs`. -/
def mergeStep (df : List (String × JValue)) (k : String) (v : JValue) : JValue :=
  match lookupField df k with
  | some dv => mergeInto dv v
  | none => v

theorem mergeFields_nil (df : List (String × JValue)) : mergeFields df [] = df := rfl

theorem mergeFields_cons (df : List (String × JValue)) (k : String) (v : JValue)
    (rest : List (String × JValue)) :
    mergeFields df ((k, v) :: rest) =
      mergeFields (insertField df k (mergeStep df k v)) rest := rfl

/-- The field list of `default_shared_config` from `ConfigManager.__init__`. -/
def default_shared_fields : List (String × JValue) :=
  [("app", .obj [
      ("title", .str "Kindle2Markdown"),
      ("default_pages", .num 100),
      ("default_page_key", .str "right"),
      ("default_ocr_lang", .str "jpn+jpn_vert+eng"),
      ("window_keyword", .str "Kindle for PC")]),
   ("capture", .obj [
      ("default_region", .obj [
        ("x", .num 0), ("y", .num 0), ("width", .num 1920), ("height", .num 1080)]),
      ("screenshot_format", .str "png"),
      ("filename_format", .str "screenshot_\x7b:04d\x7d.png")]),
   ("ocr", .obj [
      ("tesseract_config", .str "--psm 6"),
      ("supported_languages", .arr [.str "jpn", .str "jpn_vert", .str "eng",
        .str "jpn+jpn_vert+eng"]),
      ("output_format", .str "markdown")])]

/-- The field list of `default_local_config` from `ConfigManager.__init__`.
`home` abstracts `str(Path.home() / "Desktop")`. -/
def default_local_fields (home : String) : List (String × JValue) :=
  [("paths", .obj [
      ("save_folder", .str home),
      ("tesseract_cmd", .str "C:\\Program Files\\Tesseract-OCR\\tesseract.exe"),
      ("poppler_path", .str "C:\\Program Files\\poppler\\bin")]),
   ("user_preferences", .obj [
      ("last_used_region", .null),
      ("last_save_folder", .null),
      ("recent_projects", .arr [])])]

/-- Observable state of a config file on disk.  `unreadable` stands for a
file whose `exists()` is true but whose `open()` raises an `OSError`
other than `FileNotFoundError` (e.g. a permission error); `malformed`
stands for a readable file whose contents `json.load` rejects with
`json.JSONDecodeError`. -/
inductive FileData where
  | absent
  | unreadable
  | malformed
  | json (doc : JValue)
  deriving DecidableEq

/-- Embedding of `ConfigManager.load_shared_config`.  The `except` clause
of the source catches only `json.JSONDecodeError` and `FileNotFoundError`,
so an unreadable file propagates its `OSError`, and a JSON document that
is not an object makes `_merge_configs` raise an uncaught
`AttributeError` (`user.items()`). -/
def load_shared_config : FileData → Except Unit JValue
  | .absent => .ok (.obj default_shared_fields)
  | .malformed => .ok (.obj default_shared_fields)
  | .unreadable => .error ()
  | .json (.obj fields) => .ok (.obj (mergeFields default_shared_fields fields))
  | .json _ => .error ()

/-- Embedding of `ConfigManager.load_local_config` (same structure as
`load_shared_config`, against the local defaults). -/
def load_local_config (home : String) : FileData → Except Unit JValue
  | .absent => .ok (.obj (default_local_fields home))
  | .malformed => .ok (.obj (default_local_fields home))
  | .unreadable => .error ()
  | .json (.obj fields) => .ok (.obj (mergeFields (default_local_fields home) fields))
  | .json _ => .error ()

/-- The state of a `ConfigManager` instance: the two in-memory documents
plus the current on-disk contents of the two config files. -/
structure ConfigManager where
  shared_config : JValue
  local_config : JValue
  shared_file : FileData
  local_file : FileData
  deriving DecidableEq

/-- Embedding of `ConfigManager.__init__` for a given base directory
state: eagerly load both documents; an uncaught load exception makes
construction fail. -/
def ConfigManager.construct (home : String) (sharedFile localFile : FileData) :
    Except Unit ConfigManager := do
  let sc ← load_shared_config sharedFile
  let lc ← load_local_config home localFile
  .ok ⟨sc, lc, sharedFile, localFile⟩

/-- The store produced by constructing with no config files on disk. -/
def freshConfig (home : String) : ConfigManager :=
  ⟨.obj default_shared_fields, .obj (default_local_fields home), .absent, .absent⟩

/-- Embedding of `ConfigManager.get`: local document first, then shared,
then the caller-supplied default; `_get_nested_value` reports `None`
(= `JValue.null`) for an absent path. -/
def ConfigManager.get (self : ConfigManager) (key_path : String) (default : JValue) : JValue :=
  let value := getNestedValue self.local_config (splitDots key_path)
  if value ≠ .null then value
  else
    let value := getNestedValue self.shared_config (splitDots key_path)
    if value ≠ .null then value
    else default

/-- Embedding of `ConfigManager.set_shared` (raises like
`_set_nested_value`). -/
def ConfigManager.set_shared (self : ConfigManager) (key_path : String) (value : JValue) :
    Option ConfigManager :=
  (setNestedValue self.shared_config (splitDots key_path) value).map
    fun sc => { self with shared_config := sc }

/-- Embedding of `ConfigManager.set_local` (raises like
`_set_nested_value`). -/
def ConfigManager.set_local (self : ConfigManager) (key_path : String) (value : JValue) :
    Option ConfigManager :=
  (setNestedValue self.local_config (splitDots key_path) value).map
    fun lc => { self with local_config := lc }

/-- Embedding of `ConfigManager.save_local_config`: serialize the whole
in-memory local document over the local file.  Write failures (caught in
the source, reported as `False`) are not modelled; the environment is
assumed writable. -/
def ConfigManager.save_local_config (self : ConfigManager) : ConfigManager :=
  { self with local_file := .json self.local_config }

/-- Embedding of `ConfigManager.save_shared_config` (same convention as
`save_local_config`). -/
def ConfigManager.save_shared_config (self : ConfigManager) : ConfigManager :=
  { self with shared_file := .json self.shared_config }

/-- Embedding of `ConfigManager.update_capture_region`. -/
def ConfigManager.update_capture_region (self : ConfigManager) (x y width height : Int) :
    Option ConfigManager :=
  let region : JValue :=
    .obj [("x", .num x), ("y", .num y), ("width", .num width), ("height", .num height)]
  (self.set_local "user_preferences.last_used_region" region).map
    ConfigManager.save_local_config

/-- Embedding of `ConfigManager.set_capture_region`. -/
def ConfigManager.set_capture_region (self : ConfigManager) (x y width height : Int) :
    Option ConfigManager :=
  let region : JValue :=
    .obj [("x", .num x), ("y", .num y), ("width", .num width), ("height", .num height)]
  (self.set_local "user_preferences.last_used_region" region).map
    ConfigManager.save_local_config

/-- Embedding of `ConfigManager.get_capture_region`. -/
def ConfigManager.get_capture_region (self : ConfigManager) : JValue :=
  let region := self.get "user_preferences.last_used_region" .null
  if region.truthy then region
  else
    let region := self.get "capture.default_region" .null
    if region.truthy then region
    else .obj [("x", .num 0), ("y", .num 0), ("width", .num 1920), ("height", .num 1080)]

/-- Oracle form of `os.path.exists` on a stored value, for an abstract filesystem
oracle.  Only string paths are modelled (the only path values this
program stores). -/
def jPathExists (fsExists : String → Bool) : JValue → Bool
  | .str s => fsExists s
  | _ => false

/-- Embedding of `ConfigManager.get_save_folder`; `home` abstracts
`str(Path.home() / "Desktop")`, `fsExists` abstracts `os.path.exists`. -/
def ConfigManager.get_save_folder (self : ConfigManager) (home : String)
    (fsExists : String → Bool) : JValue :=
  let folder := self.get "user_preferences.last_save_folder" .null
  if folder.truthy && jPathExists fsExists folder then folder
  else
    let folder := self.get "paths.save_folder" .null
    if folder.truthy then folder
    else .str home

/-- Embedding of `ConfigManager.set_save_folder`. -/
def ConfigManager.set_save_folder (self : ConfigManager) (folder_path : String) :
    Option ConfigManager :=
  (self.set_local "user_preferences.last_save_folder" (.str folder_path)).map
    ConfigManager.save_local_config

/-- Python `p.get("title")` for the dict `p` with field list `fields`
(`None` when the key is missing). -/
def dictGet (fields : List (String × JValue)) (k : String) : JValue :=
  (lookupField fields k).getD .null

/-- The list comprehension of `add_recent_project`:
`[p for p in recent if p.get("title") != project_info.get("title")]`.
`none` models the `AttributeError` raised when an element (or, with a
non-empty list, `project_info`) is not a dict. -/
def removeSameTitle : List JValue → JValue → Option (List JValue)
  | [], _ => some []
  | p :: rest, info =>
    match p, info with
    | .obj pf, .obj inf =>
      (removeSameTitle rest info).map fun r =>
        if dictGet pf "title" = dictGet inf "title" then r else .obj pf :: r
    | _, _ => none

/-- Embedding of `ConfigManager.add_recent_project`.  A stored
`recent_projects` value that is not a list is modelled as raising (in
the source, iterating a non-iterable or calling `.get` on its elements
raises for every value this program can store there). -/
def ConfigManager.add_recent_project (self : ConfigManager) (project_info : JValue) :
    Option ConfigManager :=
  match self.get "user_preferences.recent_projects" (.arr []) with
  | .arr ps => do
    let filtered ← removeSameTitle ps project_info
    let recent : JValue := .arr ((project_info :: filtered).take 10)
    let self' ← self.set_local "user_preferences.recent_projects" recent
    pure self'.save_local_config
  | _ => none

/-- Embedding of `ConfigManager.get_recent_projects`. -/
def ConfigManager.get_recent_projects (self : ConfigManager) : JValue :=
  self.get "user_preferences.recent_projects" (.arr [])

/-- Model of Python's `str.splitlines()` for `'\n'`-separated text: one
entry per line, a trailing newline does not produce a trailing empty
line (`"" → []`, `"a\n" → ["a"]`, `"a\n\n" → ["a", ""]`). -/
def splitlinesCore : List Char → List (List Char)
  | [] => []
  | c :: cs =>
    if c = '\n' then [] :: splitlinesCore cs
    else
      match splitlinesCore cs with
      | [] => [[c]]
      | l :: ls => (c :: l) :: ls

/-- Python `f.read().splitlines()` on strings. -/
def pySplitlines (s : String) : List String :=
  (splitlinesCore s.data).map fun l => ⟨l⟩

/-- Model of Python's `sep.join(entries)`. -/
def pyJoin (sep : String) : List String → String
  | [] => ""
  | [x] => x
  | x :: xs => x ++ sep ++ pyJoin sep xs

/-- Test for `entry.strip() != ""`: the entry contains a non-whitespace
character. -/
def nonBlank (s : String) : Bool :=
  s.data.any fun c => !c.isWhitespace

/-- The fixed `entries_to_add` block of `ConfigManager.create_gitignore`. -/
def entries_to_add : List String :=
  ["# ローカル設定ファイル（各PC固有）",
   "config.local.json",
   "",
   "# OCR出力ファイル",
   "output.md",
   "*.md",
   "!README.md",
   "",
   "# スクリーンショット",
   "screenshot_*.png",
   "screenshots/",
   ""]

/-- Embedding of `ConfigManager.create_gitignore` as a transformer on the
`.gitignore` file contents (an absent file reads as `""` and is created
by the append-mode open).  Non-blank entries not yet present verbatim
are appended, preceded by a separating newline when the existing last
line is non-empty. -/
def create_gitignore (old : String) : String :=
  let existing := pySplitlines old
  let entries_to_write :=
    entries_to_add.filter fun entry => decide (entry ∉ existing) && nonBlank entry
  if entries_to_write.isEmpty then old
  else
    let sep :=
      match existing.getLast? with
      | some l => if l ≠ "" then "\n" else ""
      | none => ""
    old ++ sep ++ pyJoin "\n" entries_to_write ++ "\n"

theorem getNestedValue_eq_getPath (p : List String) :
    ∀ v : JValue, getNestedValue v p = (getPath v p).getD .null := by
  induction p with
  | nil => intro v; cases v <;> rfl
  | cons k rest ih =>
    intro v
    cases v with
    | obj fields =>
      simp only [getNestedValue, getPath]
      cases lookupField fields k with
      | none => rfl
      | some w => exact ih w
    | null => rfl
    | bool b => rfl
    | num n => rfl
    | str s => rfl
    | arr xs => rfl

/-- The local-then-shared "present and non-null" resolution chain. -/
def docLookup (self : ConfigManager) (p : List String) : Option JValue :=
  match specLookup self.local_config p with
  | some v => some v
  | none => specLookup self.shared_config p

theorem specLookup_ne_null {v : JValue} {p : List String} {w : JValue}
    (h : specLookup v p = some w) : w ≠ JValue.null := by
  unfold specLookup at h
  cases hg : getPath v p with
  | none => rw [hg] at h; exact absurd h (by simp)
  | some u =>
    rw [hg] at h
    by_cases hu : u = JValue.null <;> simp [hu] at h
    exact h.symm ▸ hu

theorem ConfigManager.get_eq (self : ConfigManager) (key_path : String) (default : JValue) :
    self.get key_path default = (docLookup self (splitDots key_path)).getD default := by
  unfold ConfigManager.get docLookup specLookup
  rw [getNestedValue_eq_getPath, getNestedValue_eq_getPath]
  cases hl : getPath self.local_config (splitDots key_path) with
  | some w =>
    by_cases hw : w = JValue.null
    · subst hw
      simp only [Option.getD_some, ne_eq, not_true_eq_false, if_neg, if_false]
      cases hs : getPath self.shared_config (splitDots key_path) with
      | some u =>
        by_cases hu : u = JValue.null <;> simp [hu]
      | none => simp
    · simp [hw]
  | none =>
    simp only [Option.getD_none]
    cases hs : getPath self.shared_config (splitDots key_path) with
    | some u =>
      by_cases hu : u = JValue.null <;> simp [hu]
    | none => simp

/-- C3: `get(path, default)` returns the local document's value at the
path when it is present and non-null, otherwise the shared document's
value when present and non-null, otherwise the supplied default; a path
component that is absent, or that indexes into a non-mapping, counts as
not found for that document (`specLookup`/`getPath` semantics). -/
theorem get_follows_lookup_precedence (self : ConfigManager) (key_path : String)
    (default : JValue) :
    self.get key_path default =
      match specLookup self.local_config (splitDots key_path) with
      | some v => v
      | none =>
        match specLookup self.shared_config (splitDots key_path) with
        | some v => v
        | none => default := by
  rw [ConfigManager.get_eq]
  unfold docLookup
  cases specLookup self.local_config (splitDots key_path) with
  | some v => rfl
  | none =>
    cases specLookup self.shared_config (splitDots key_path) with
    | some v => rfl
    | none => rfl

/-- C9: `update_capture_region` and `set_capture_region` are the same
operation: identical method bodies, hence identical final states on
every store state and arguments. -/
theorem update_capture_region_eq_set_capture_region (self : ConfigManager)
    (x y width height : Int) :
    self.update_capture_region x y width height =
      self.set_capture_region x y width height := rfl

theorem pathOk_emptyObj : ∀ (k : String) (rest : List String),
    pathOk (.obj []) (k :: rest) = true
  | _, [] => rfl
  | _, _ :: _ => by simp [pathOk, lookupField]

theorem setNestedValue_isSome_iff :
    ∀ (config : JValue) (keys : List String) (value : JValue),
      (setNestedValue config keys value).isSome = pathOk config keys
  | config, [], _ => by cases config <;> rfl
  | config, [_], _ => by cases config <;> rfl
  | config, k :: k' :: rest, value => by
    cases config with
    | obj fields =>
      simp only [setNestedValue, pathOk]
      cases lookupField fields k with
      | some v =>
        simp [setNestedValue_isSome_iff v (k' :: rest) value]
      | none =>
        simp [setNestedValue_isSome_iff (.obj []) (k' :: rest) value, pathOk_emptyObj]
    | null => rfl
    | bool b => rfl
    | num n => rfl
    | str s => rfl
    | arr xs => rfl

/-- C1 fails as stated: on the freshly constructed store (whose local
document has `user_preferences.last_used_region = None`), the call
`set_local("user_preferences.last_used_region.x", 5)` assigns into a
non-mapping; in the source `current[keys[-1]] = value` raises an
uncaught `TypeError` that propagates to the caller. -/
theorem set_local_raises_through_null :
    (freshConfig "HOME").set_local "user_preferences.last_used_region.x" (.num 5)
      = none := by decide

/-- C1 amended: `get`, the loads on absent or malformed files, the saves
and the domain accessors on the states this program produces do not
raise, but `set_shared`/`set_local` raise an uncaught `TypeError`
exactly when the dotted path meets an existing non-mapping value: a set
returns normally if and only if every intermediate path component is
absent or maps to a mapping and the final container is a mapping
(`pathOk`). -/
theorem setNestedValue_raises_iff_pathOk (config : JValue) (keys : List String)
    (value : JValue) :
    (setNestedValue config keys value).isSome = pathOk config keys :=
  setNestedValue_isSome_iff config keys value

/-- C5 fails as stated: a config file that exists but is unreadable
(its `open()` raises an `OSError` that is not `FileNotFoundError`, e.g.
a permission error) is not caught by the
`except (json.JSONDecodeError, FileNotFoundError)` clause of
`load_shared_config`, so construction fails. -/
theorem construct_raises_on_unreadable_file :
    ConfigManager.construct "HOME" .unreadable .absent = .error () := rfl

/-- C5 amended: a config file with malformed JSON is caught and only
that document falls back to its built-in defaults; construction
succeeds and `get("app.title")` returns the built-in default title
(and, for a malformed local file, `get("paths.save_folder")` returns
the built-in default save folder). -/
theorem construct_malformed_uses_defaults (home : String) :
    (ConfigManager.construct home .malformed .absent).toOption.map
        (fun st => (st.shared_config, st.get "app.title" .null))
      = some (.obj default_shared_fields, .str "Kindle2Markdown") ∧
    (ConfigManager.construct home .absent .malformed).toOption.map
        (fun st => (st.local_config, st.get "app.title" .null, st.get "paths.save_folder" .null))
      = some (.obj (default_local_fields home), .str "Kindle2Markdown", .str home) := by
  constructor
  · rfl
  · rfl

/-- C6 fails as stated: `set_local` alone does not persist, so after
`set_local("a.b.c", 5)` the in-memory `get("a.b.c")` is `5`, but the
local config file on disk is unchanged and a fresh store constructed
from the same files reads `None` (not `5`) at that path. -/
theorem set_local_alone_is_not_persisted :
    ((freshConfig "HOME").set_local "a.b.c" (.num 5)).map
        (fun st =>
          (st.get "a.b.c" .null,
           (ConfigManager.construct "HOME" st.shared_file st.local_file).toOption.map
             (fun st2 => st2.get "a.b.c" .null)))
      = some (.num 5, some .null) ∧ JValue.null ≠ JValue.num 5 := by
  constructor
  · decide
  · decide

/-- C6 amended: `set_local("a.b.c", 5)` followed by `get("a.b.c")`
returns `5`, and after additionally calling `save_local_config()` the
local file on disk, reloaded by a fresh store, also yields `5` at that
path. -/
theorem set_local_get_and_reload_after_save (home : String) :
    ((freshConfig home).set_local "a.b.c" (.num 5)).map
        (fun st =>
          (st.get "a.b.c" .null,
           (ConfigManager.construct home st.save_local_config.shared_file
               st.save_local_config.local_file).toOption.map
             (fun st2 => st2.get "a.b.c" .null)))
      = some (.num 5, some (.num 5)) := by
  rfl

/-- The fallback chain of the amended save-folder claim:
`paths.save_folder` resolved local-document-first, then shared, then
the platform desktop path. -/
def save_folder_fallback (self : ConfigManager) (home : String) : JValue :=
  match docLookup self ["paths", "save_folder"] with
  | some v => if v.truthy then v else .str home
  | none => .str home

/-- The amended save-folder claim as a definition (follows the amended
claim's words): the remembered `user_preferences.last_save_folder`
(local first, then shared) when truthy and existing on disk, else
`save_folder_fallback`. -/
def save_folder_spec (self : ConfigManager) (home : String) (fsExists : String → Bool) :
    JValue :=
  match docLookup self ["user_preferences", "last_save_folder"] with
  | some v =>
    if v.truthy && jPathExists fsExists v then v else save_folder_fallback self home
  | none => save_folder_fallback self home

/-- C7 fails as stated: when the remembered folder does not exist,
`get_save_folder` falls back to `get("paths.save_folder")`, which
prefers the *local* document (where `paths.save_folder` lives in the
built-in defaults), not the shared one.  With local
`paths.save_folder = "/L"`, shared `paths.save_folder = "/S"` and a
remembered folder that no longer exists, the code returns `"/L"`, not
`"/S"`. -/
theorem get_save_folder_prefers_local_paths :
    (ConfigManager.construct "HOME"
        (.json (.obj [("paths", .obj [("save_folder", .str "/S")])]))
        (.json (.obj [("paths", .obj [("save_folder", .str "/L")]),
                      ("user_preferences", .obj [("last_save_folder", .str "/gone")])]))).toOption.map
        (fun st => st.get_save_folder "HOME" (fun s => decide (s ≠ "/gone")))
      = some (.str "/L") ∧ JValue.str "/L" ≠ JValue.str "/S" := by
  constructor
  · decide
  · decide

/-- C7 amended: `get_save_folder()` returns the remembered
`user_preferences.last_save_folder` only when it is truthy and the path
exists on disk; otherwise it falls back to `paths.save_folder` resolved
with the standard precedence (local document first, then shared) when
truthy, and otherwise to the platform's default desktop path. -/
theorem get_save_folder_matches_spec (self : ConfigManager) (home : String)
    (fsExists : String → Bool) :
    self.get_save_folder home fsExists = save_folder_spec self home fsExists := by
  unfold ConfigManager.get_save_folder save_folder_spec save_folder_fallback
  rw [ConfigManager.get_eq, ConfigManager.get_eq]
  have h1 : splitDots "user_preferences.last_save_folder"
      = ["user_preferences", "last_save_folder"] := rfl
  have h2 : splitDots "paths.save_folder" = ["paths", "save_folder"] := rfl
  rw [h1, h2]
  cases docLookup self ["user_preferences", "last_save_folder"] with
  | none =>
    simp only [Option.getD_none, Option.getD_some]
    cases docLookup self ["paths", "save_folder"] with
    | none => simp [JValue.truthy, jPathExists]
    | some u => simp [JValue.truthy, jPathExists]
  | some v =>
    simp only [Option.getD_some]
    by_cases hv : (v.truthy && jPathExists fsExists v) = true
    · simp [hv]
    · simp only [hv, if_false, Bool.not_eq_true]
      cases docLookup self ["paths", "save_folder"] with
      | none => simp [JValue.truthy]
      | some u => simp [JValue.truthy]

/-- The hardcoded fallback rectangle of `get_capture_region`. -/
def default_region_hardcoded : JValue :=
  .obj [("x", .num 0), ("y", .num 0), ("width", .num 1920), ("height", .num 1080)]

/-- The fallback chain of the amended capture-region claim:
`capture.default_region` resolved local-document-first, then shared,
when truthy, else the hardcoded rectangle. -/
def capture_region_fallback (self : ConfigManager) : JValue :=
  match docLookup self ["capture", "default_region"] with
  | some r => if r.truthy then r else default_region_hardcoded
  | none => default_region_hardcoded

/-- C10 fails as stated: the fallback for a falsy stored region is
`get("capture.default_region")`, which prefers the *local* document.
With a local document that stores both `last_used_region = {}` and a
`capture.default_region` of its own, the code returns the local
`capture.default_region`, not the shared one and not the hardcoded
rectangle. -/
theorem get_capture_region_prefers_local_default :
    (ConfigManager.construct "HOME" .absent
        (.json (.obj [("capture", .obj [("default_region", .obj [("x", .num 9)])]),
                      ("user_preferences", .obj [("last_used_region", .obj [])])]))).toOption.map
        (fun st => st.get_capture_region)
      = some (.obj [("x", .num 9)]) ∧
    JValue.obj [("x", .num 9)] ≠ default_region_hardcoded ∧
    (ConfigManager.construct "HOME" .absent
        (.json (.obj [("capture", .obj [("default_region", .obj [("x", .num 9)])]),
                      ("user_preferences", .obj [("last_used_region", .obj [])])]))).toOption.map
        (fun st => getPath st.shared_config ["capture", "default_region"])
      = some (some default_region_hardcoded) := by
  refine ⟨by decide, by decide, by decide⟩

theorem truthy_ne_of_truthy {a b : JValue} (ha : a.truthy = true) (hb : b.truthy = false) :
    a ≠ b := by
  intro h
  rw [h, hb] at ha
  exact Bool.false_ne_true ha

/-- C10 amended: when the local document's
`user_preferences.last_used_region` is present and non-null but falsy,
`get_capture_region()` does not return that stored value: it falls
through to `capture.default_region` resolved with the standard
precedence (local document first, then shared) when truthy, or failing
that to the hardcoded rectangle `{x:0, y:0, width:1920, height:1080}`. -/
theorem get_capture_region_skips_falsy_stored (self : ConfigManager) (v : JValue)
    (h : specLookup self.local_config ["user_preferences", "last_used_region"] = some v)
    (hf : v.truthy = false) :
    self.get_capture_region = capture_region_fallback self ∧
      self.get_capture_region ≠ v := by
  have hdoc : docLookup self ["user_preferences", "last_used_region"] = some v := by
    unfold docLookup
    rw [h]
  have hget : self.get "user_preferences.last_used_region" .null = v := by
    rw [ConfigManager.get_eq]
    have hsplit : splitDots "user_preferences.last_used_region"
        = ["user_preferences", "last_used_region"] := rfl
    rw [hsplit, hdoc]
    rfl
  have hmain : self.get_capture_region = capture_region_fallback self := by
    unfold ConfigManager.get_capture_region capture_region_fallback
    rw [hget]
    simp only [hf, Bool.false_eq_true, if_false]
    rw [ConfigManager.get_eq]
    have hsplit2 : splitDots "capture.default_region" = ["capture", "default_region"] := rfl
    rw [hsplit2]
    cases docLookup self ["capture", "default_region"] with
    | none => simp [JValue.truthy, default_region_hardcoded]
    | some r =>
      by_cases hr : r.truthy = true
      · simp [hr]
      · rw [Bool.not_eq_true] at hr
        simp [hr, default_region_hardcoded]
  refine ⟨hmain, ?_⟩
  rw [hmain]
  unfold capture_region_fallback
  cases docLookup self ["capture", "default_region"] with
  | none => exact truthy_ne_of_truthy (by decide) hf
  | some r =>
    by_cases hr : r.truthy = true
    · simp only [hr, if_true]
      exact truthy_ne_of_truthy hr hf
    · rw [Bool.not_eq_true] at hr
      simp only [hr, Bool.false_eq_true, if_false]
      exact truthy_ne_of_truthy (by decide) hf

/-- Witness for `get_capture_region_skips_falsy_stored` at a concrete
store whose local document holds `last_used_region = {}`. -/
theorem get_capture_region_skips_falsy_stored_witness :
    (ConfigManager.mk (.obj default_shared_fields)
        (.obj [("user_preferences", .obj [("last_used_region", .obj [])])])
        .absent .absent).get_capture_region =
      capture_region_fallback
        (ConfigManager.mk (.obj default_shared_fields)
          (.obj [("user_preferences", .obj [("last_used_region", .obj [])])])
          .absent .absent) ∧
    (ConfigManager.mk (.obj default_shared_fields)
        (.obj [("user_preferences", .obj [("last_used_region", .obj [])])])
        .absent .absent).get_capture_region ≠ .obj [] :=
  get_capture_region_skips_falsy_stored
    (ConfigManager.mk (.obj default_shared_fields)
      (.obj [("user_preferences", .obj [("last_used_region", .obj [])])])
      .absent .absent)
    (.obj []) (by decide) (by decide)

theorem lookupField_insertField (fs : List (String × JValue)) (k : String) (v : JValue)
    (k' : String) :
    lookupField (insertField fs k v) k' = if k = k' then some v else lookupField fs k' := by
  induction fs with
  | nil => by_cases h : k = k' <;> simp [insertField, lookupField, h]
  | cons p rest ih =>
    obtain ⟨k0, v0⟩ := p
    by_cases h0 : k0 = k <;> by_cases h1 : k = k' <;> by_cases h2 : k0 = k' <;>
      simp_all [insertField, lookupField]

theorem lookupField_eq_none (fs : List (String × JValue)) (k : String)
    (h : k ∉ fs.map Prod.fst) : lookupField fs k = none := by
  induction fs with
  | nil => rfl
  | cons p rest ih =>
    obtain ⟨k0, v0⟩ := p
    simp only [List.map_cons, List.mem_cons, not_or] at h
    simp only [lookupField]
    rw [if_neg fun hh => h.1 hh.symm]
    exact ih h.2

/-- Pairwise distinct keys, as every Python dict has. -/
def noDupKeys : List String → Bool
  | [] => true
  | k :: rest => decide (k ∉ rest) && noDupKeys rest

mutual

/-- Well-formed document: every mapping (at any depth) has pairwise
distinct keys — true of every Python dict, in particular of every
`json.load` result. -/
def wfValue : JValue → Bool
  | .null => true
  | .bool _ => true
  | .num _ => true
  | .str _ => true
  | .arr xs => wfElems xs
  | .obj fields => noDupKeys (fields.map Prod.fst) && wfFields fields

/-- Well-formedness of array elements. -/
def wfElems : List JValue → Bool
  | [] => true
  | x :: xs => wfValue x && wfElems xs

/-- Well-formedness of mapping values. -/
def wfFields : List (String × JValue) → Bool
  | [] => true
  | (_, v) :: rest => wfValue v && wfFields rest

end

theorem wfValue_obj {fields : List (String × JValue)}
    (h : wfValue (.obj fields) = true) :
    noDupKeys (fields.map Prod.fst) = true ∧ wfFields fields = true := by
  simpa [wfValue, Bool.and_eq_true] using h

theorem wfFields_lookup : ∀ (fields : List (String × JValue)) (k : String) (v : JValue),
    wfFields fields = true → lookupField fields k = some v → wfValue v = true
  | [], _, _, _, h => by simp [lookupField] at h
  | (k0, v0) :: rest, k, v, hwf, h => by
    simp only [wfFields, Bool.and_eq_true] at hwf
    simp only [lookupField] at h
    by_cases h0 : k0 = k
    · rw [if_pos h0] at h
      cases h
      exact hwf.1
    · rw [if_neg h0] at h
      exact wfFields_lookup rest k v hwf.2 h

theorem mergeStep_congr {df df' : List (String × JValue)} (k : String) (v : JValue)
    (h : lookupField df k = lookupField df' k) : mergeStep df k v = mergeStep df' k v := by
  unfold mergeStep
  rw [h]

theorem lookupField_mergeFields : ∀ (uf df : List (String × JValue)) (k : String),
    noDupKeys (uf.map Prod.fst) = true →
    lookupField (mergeFields df uf) k =
      match lookupField uf k with
      | some uv => some (mergeStep df k uv)
      | none => lookupField df k
  | [], df, k, _ => by simp [mergeFields_nil, lookupField]
  | (k0, v0) :: rest, df, k, hnd => by
    have hk0 : k0 ∉ rest.map Prod.fst ∧ noDupKeys (rest.map Prod.fst) = true := by
      simp only [List.map_cons, noDupKeys, Bool.and_eq_true, decide_eq_true_eq] at hnd
      exact hnd
    rw [mergeFields_cons,
      lookupField_mergeFields rest (insertField df k0 (mergeStep df k0 v0)) k hk0.2]
    by_cases h0 : k0 = k
    · subst h0
      rw [lookupField_eq_none rest k0 hk0.1]
      simp only [lookupField, if_pos rfl]
      rw [lookupField_insertField]
      simp
    · simp only [lookupField, if_neg h0]
      cases hr : lookupField rest k with
      | some uv =>
        exact congrArg some
          (mergeStep_congr k uv (by rw [lookupField_insertField, if_neg h0]))
      | none => rw [lookupField_insertField, if_neg h0]

/-- Every proper prefix of the path that is present in the user
document holds a mapping there: the condition under which a default
key path survives `_merge_configs`. -/
def prefixFree : JValue → List String → Bool
  | _, [] => true
  | .obj ufields, k :: rest =>
    (match lookupField ufields k with
     | some w => prefixFree w rest
     | none => true)
  | _, _ :: _ => false

theorem mergeInto_of_not_obj {dv v : JValue} (h : v.isObj = false) :
    mergeInto dv v = v := by
  cases dv <;> cases v <;> simp_all [mergeInto, JValue.isObj]

theorem getPath_cons_not_obj {v : JValue} {k : String} {rest : List String}
    (h : v.isObj = false) : getPath v (k :: rest) = none := by
  cases v <;> simp_all [getPath, JValue.isObj]

theorem mergeFields_preserves_path : ∀ (p : List String) (df uf : List (String × JValue)),
    wfValue (.obj uf) = true →
    hasPath (.obj df) p = true →
    prefixFree (.obj uf) p = true →
    hasPath (.obj (mergeFields df uf)) p = true
  | [], _, _, _, _, _ => rfl
  | k :: rest, df, uf, hwf, hpath, hpre => by
    obtain ⟨hnd, hwfF⟩ := wfValue_obj hwf
    simp only [hasPath, getPath] at hpath ⊢
    rw [lookupField_mergeFields uf df k hnd]
    cases hdf : lookupField df k with
    | none => rw [hdf] at hpath; simp at hpath
    | some dv =>
      simp only [hdf] at hpath
      simp only [prefixFree] at hpre
      cases huf : lookupField uf k with
      | none => simpa using hpath
      | some uv =>
        simp only [huf] at hpre
        simp only [mergeStep, hdf]
        cases rest with
        | nil => simp [getPath]
        | cons r rs =>
          have hdv : dv.isObj = true := by
            by_contra hc
            rw [Bool.not_eq_true] at hc
            rw [getPath_cons_not_obj hc] at hpath
            simp at hpath
          have huv : uv.isObj = true := by
            cases uv <;> simp_all [prefixFree, JValue.isObj]
          cases dv with
          | obj d2 =>
            cases uv with
            | obj u2 =>
              simp only [mergeInto]
              have hwfu2 : wfValue (.obj u2) = true := wfFields_lookup uf k _ hwfF huf
              have := mergeFields_preserves_path (r :: rs) d2 u2 hwfu2
                (by simpa [hasPath] using hpath) hpre
              simpa [hasPath] using this
            | null => simp [JValue.isObj] at huv
            | bool b => simp [JValue.isObj] at huv
            | num n => simp [JValue.isObj] at huv
            | str s => simp [JValue.isObj] at huv
            | arr xs => simp [JValue.isObj] at huv
          | null => simp [JValue.isObj] at hdv
          | bool b => simp [JValue.isObj] at hdv
          | num n => simp [JValue.isObj] at hdv
          | str s => simp [JValue.isObj] at hdv
          | arr xs => simp [JValue.isObj] at hdv

theorem mergeFields_user_override :
    ∀ (p : List String) (df uf : List (String × JValue)) (v : JValue),
      wfValue (.obj uf) = true →
      getPath (.obj uf) p = some v →
      v.isObj = false →
      getPath (.obj (mergeFields df uf)) p = some v
  | [], _, uf, v, _, hget, hno => by
    simp only [getPath, Option.some.injEq] at hget
    rw [← hget] at hno
    simp [JValue.isObj] at hno
  | k :: rest, df, uf, v, hwf, hget, hno => by
    obtain ⟨hnd, hwfF⟩ := wfValue_obj hwf
    simp only [getPath] at hget ⊢
    rw [lookupField_mergeFields uf df k hnd]
    cases huf : lookupField uf k with
    | none => rw [huf] at hget; simp at hget
    | some uv =>
      simp only [huf] at hget
      simp only [mergeStep]
      cases rest with
      | nil =>
        simp only [getPath, Option.some.injEq] at hget
        subst hget
        cases hdf : lookupField df k with
        | none => simp [getPath]
        | some dv => simp [getPath, mergeInto_of_not_obj hno]
      | cons r rs =>
        have huv : uv.isObj = true := by
          by_contra hc
          rw [Bool.not_eq_true] at hc
          rw [getPath_cons_not_obj hc] at hget
          exact Option.noConfusion hget
        cases uv with
        | obj u2 =>
          have hwfu2 : wfValue (.obj u2) = true := wfFields_lookup uf k _ hwfF huf
          cases hdf : lookupField df k with
          | none => simpa using hget
          | some dv =>
            cases dv with
            | obj d2 =>
              simp only [mergeInto]
              exact mergeFields_user_override (r :: rs) d2 u2 v hwfu2 hget hno
            | null => simpa [mergeInto] using hget
            | bool b => simpa [mergeInto] using hget
            | num n => simpa [mergeInto] using hget
            | str s => simpa [mergeInto] using hget
            | arr xs => simpa [mergeInto] using hget
        | null => simp [JValue.isObj] at huv
        | bool b => simp [JValue.isObj] at huv
        | num n => simp [JValue.isObj] at huv
        | str s => simp [JValue.isObj] at huv
        | arr xs => simp [JValue.isObj] at huv

theorem mergeFields_merges_mappings :
    ∀ (p : List String) (df uf d2 u2 : List (String × JValue)),
      wfValue (.obj uf) = true →
      getPath (.obj df) p = some (.obj d2) →
      getPath (.obj uf) p = some (.obj u2) →
      getPath (.obj (mergeFields df uf)) p = some (.obj (mergeFields d2 u2))
  | [], df, uf, d2, u2, _, hd, hu => by
    simp only [getPath, Option.some.injEq, JValue.obj.injEq] at hd hu
    subst hd
    subst hu
    rfl
  | k :: rest, df, uf, d2, u2, hwf, hd, hu => by
    obtain ⟨hnd, hwfF⟩ := wfValue_obj hwf
    simp only [getPath] at hd hu ⊢
    rw [lookupField_mergeFields uf df k hnd]
    cases huf : lookupField uf k with
    | none => rw [huf] at hu; simp at hu
    | some uv =>
      simp only [huf] at hu
      cases hdf : lookupField df k with
      | none => rw [hdf] at hd; simp at hd
      | some dv =>
        simp only [hdf] at hd
        simp only [mergeStep, hdf]
        cases rest with
        | nil =>
          simp only [getPath, Option.some.injEq] at hd hu
          subst hd
          subst hu
          simp [mergeInto, getPath]
        | cons r rs =>
          have hdvo : dv.isObj = true := by
            by_contra hc
            rw [Bool.not_eq_true] at hc
            rw [getPath_cons_not_obj hc] at hd
            exact Option.noConfusion hd
          have huvo : uv.isObj = true := by
            by_contra hc
            rw [Bool.not_eq_true] at hc
            rw [getPath_cons_not_obj hc] at hu
            exact Option.noConfusion hu
          cases dv with
          | obj dd =>
            cases uv with
            | obj uu =>
              simp only [mergeInto]
              have hwfuu : wfValue (.obj uu) = true := wfFields_lookup uf k _ hwfF huf
              exact mergeFields_merges_mappings (r :: rs) dd uu d2 u2 hwfuu hd hu
            | null => simp [JValue.isObj] at huvo
            | bool b => simp [JValue.isObj] at huvo
            | num n => simp [JValue.isObj] at huvo
            | str s => simp [JValue.isObj] at huvo
            | arr xs => simp [JValue.isObj] at huvo
          | null => simp [JValue.isObj] at hdvo
          | bool b => simp [JValue.isObj] at hdvo
          | num n => simp [JValue.isObj] at hdvo
          | str s => simp [JValue.isObj] at hdvo
          | arr xs => simp [JValue.isObj] at hdvo

/-- C2 fails as stated: a user document may place a scalar where the
defaults hold a mapping; the scalar then replaces the whole mapping and
the default's subkeys are dropped.  Loading a local file containing
`{"paths": 5}` yields a document without `paths.save_folder`, a key
path present in the built-in defaults. -/
theorem merge_can_drop_default_subkeys :
    hasPath (.obj (default_local_fields "HOME")) ["paths", "save_folder"] = true ∧
    (load_local_config "HOME" (.json (.obj [("paths", .num 5)]))).toOption.map
        (fun doc => hasPath doc ["paths", "save_folder"])
      = some false := by
  refine ⟨by decide, by decide⟩

/-- C2 amended: for every default document and well-formed user
document, (1) every key path present in the defaults whose proper
prefixes the user document does not override with a non-mapping is
still present after the merge; (2) at any path where the user document
supplies a non-mapping value, the merged document holds exactly the
user's value; (3) at any path where both documents supply mappings, the
merged document holds their recursive merge rather than the user's
mapping alone. -/
theorem merge_preserves_defaults (df uf : List (String × JValue))
    (hwf : wfValue (.obj uf) = true) :
    (∀ p, hasPath (.obj df) p = true → prefixFree (.obj uf) p = true →
      hasPath (.obj (mergeFields df uf)) p = true) ∧
    (∀ p v, getPath (.obj uf) p = some v → v.isObj = false →
      getPath (.obj (mergeFields df uf)) p = some v) ∧
    (∀ p d2 u2, getPath (.obj df) p = some (.obj d2) →
      getPath (.obj uf) p = some (.obj u2) →
      getPath (.obj (mergeFields df uf)) p = some (.obj (mergeFields d2 u2))) :=
  ⟨fun p => mergeFields_preserves_path p df uf hwf,
   fun p v => mergeFields_user_override p df uf v hwf,
   fun p d2 u2 => mergeFields_merges_mappings p df uf d2 u2 hwf⟩

/-- Witness for `merge_preserves_defaults`: merging the built-in local
defaults with `{"paths": {"save_folder": "/x"}}` keeps
`paths.tesseract_cmd` and overrides `paths.save_folder` with `"/x"`. -/
theorem merge_preserves_defaults_witness :
    hasPath (.obj (mergeFields (default_local_fields "H")
        [("paths", .obj [("save_folder", .str "/x")])])) ["paths", "tesseract_cmd"] = true ∧
    getPath (.obj (mergeFields (default_local_fields "H")
        [("paths", .obj [("save_folder", .str "/x")])])) ["paths", "save_folder"]
      = some (.str "/x") :=
  ⟨(merge_preserves_defaults (default_local_fields "H")
      [("paths", .obj [("save_folder", .str "/x")])] (by decide)).1
      ["paths", "tesseract_cmd"] (by decide) (by decide),
   (merge_preserves_defaults (default_local_fields "H")
      [("paths", .obj [("save_folder", .str "/x")])] (by decide)).2.1
      ["paths", "save_folder"] (.str "/x") (by decide) (by decide)⟩

/-- The `title` of a stored project record (`p.get("title")`). -/
def titleVal : JValue → JValue
  | .obj pf => dictGet pf "title"
  | _ => .null

/-- The record is a mapping that has a `"title"` key. -/
def hasTitleKey : JValue → Bool
  | .obj pf => (lookupField pf "title").isSome
  | _ => false

/-- Keep, for each title, only its most recent occurrence: scanning a
newest-first list, drop later (older) records with an already-seen
title. -/
def dedupByTitle : List JValue → List JValue
  | [] => []
  | x :: xs => x :: (dedupByTitle xs).filter fun y => titleVal y != titleVal x

/-- A sequence of `add_recent_project` calls. -/
def addRecentAll (self : ConfigManager) : List JValue → Option ConfigManager
  | [] => some self
  | info :: rest =>
    match self.add_recent_project info with
    | some self' => addRecentAll self' rest
    | none => none

/-- The local document stores exactly `L` at
`user_preferences.recent_projects`. -/
def recentState (self : ConfigManager) (L : List JValue) : Prop :=
  ∃ lf uf, self.local_config = .obj lf ∧
    lookupField lf "user_preferences" = some (.obj uf) ∧
    lookupField uf "recent_projects" = some (.arr L)

theorem removeSameTitle_filter :
    ∀ (L : List JValue) (inf : List (String × JValue)),
      (∀ p ∈ L, p.isObj = true) →
      removeSameTitle L (.obj inf) =
        some (L.filter fun y => titleVal y != titleVal (.obj inf))
  | [], _, _ => rfl
  | p :: rest, inf, hL => by
    have hp : p.isObj = true := hL p (List.mem_cons_self p rest)
    cases p with
    | obj pf =>
      have ih := removeSameTitle_filter rest inf
        (fun q hq => hL q (List.mem_cons_of_mem _ hq))
      simp only [removeSameTitle, ih, Option.map_some', List.filter_cons]
      by_cases h : dictGet pf "title" = dictGet inf "title"
      · simp [h, titleVal, bne]
      · simp [h, titleVal, bne]
    | null => simp [JValue.isObj] at hp
    | bool b => simp [JValue.isObj] at hp
    | num n => simp [JValue.isObj] at hp
    | str s => simp [JValue.isObj] at hp
    | arr xs => simp [JValue.isObj] at hp

theorem add_recent_project_step (self : ConfigManager) (L : List JValue) (info : JValue)
    (hst : recentState self L) (hL : ∀ p ∈ L, p.isObj = true)
    (hinfo : info.isObj = true) :
    ∃ self', self.add_recent_project info = some self' ∧
      recentState self'
        ((info :: L.filter fun y => titleVal y != titleVal info).take 10) := by
  obtain ⟨lf, uf, h1, h2, h3⟩ := hst
  have hsplit : splitDots "user_preferences.recent_projects"
      = ["user_preferences", "recent_projects"] := rfl
  have hget : self.get "user_preferences.recent_projects" (.arr []) = .arr L := by
    unfold ConfigManager.get
    rw [hsplit, h1]
    simp only [getNestedValue, h2, h3]
    rw [if_pos (fun hc => JValue.noConfusion hc)]
  cases info with
  | obj inf =>
    have hrem := removeSameTitle_filter L inf hL
    have hset : self.set_local "user_preferences.recent_projects"
        (.arr ((JValue.obj inf :: L.filter fun y =>
          titleVal y != titleVal (.obj inf)).take 10))
        = some (ConfigManager.mk self.shared_config
            (JValue.obj (insertField lf "user_preferences"
              (JValue.obj (insertField uf "recent_projects"
                (JValue.arr ((JValue.obj inf :: L.filter fun y =>
                  titleVal y != titleVal (.obj inf)).take 10))))))
            self.shared_file self.local_file) := by
      unfold ConfigManager.set_local
      rw [hsplit, h1]
      simp only [setNestedValue, h2, Option.map_some']
    refine ⟨(ConfigManager.mk self.shared_config
        (JValue.obj (insertField lf "user_preferences"
          (JValue.obj (insertField uf "recent_projects"
            (JValue.arr ((JValue.obj inf :: L.filter fun y =>
              titleVal y != titleVal (.obj inf)).take 10))))))
        self.shared_file self.local_file).save_local_config, ?_, ?_⟩
    · unfold ConfigManager.add_recent_project
      rw [hget]
      simp only [List.take_succ_cons] at hset
      simp [hrem, hset]
    · exact ⟨insertField lf "user_preferences"
        (JValue.obj (insertField uf "recent_projects"
          (JValue.arr ((JValue.obj inf :: L.filter fun y =>
            titleVal y != titleVal (.obj inf)).take 10)))),
        insertField uf "recent_projects"
          (JValue.arr ((JValue.obj inf :: L.filter fun y =>
            titleVal y != titleVal (.obj inf)).take 10)),
        rfl,
        by rw [lookupField_insertField]; simp,
        by rw [lookupField_insertField]; simp⟩
  | null => simp [JValue.isObj] at hinfo
  | bool b => simp [JValue.isObj] at hinfo
  | num n => simp [JValue.isObj] at hinfo
  | str s => simp [JValue.isObj] at hinfo
  | arr xs => simp [JValue.isObj] at hinfo

theorem hasTitleKey_isObj {i : JValue} (h : hasTitleKey i = true) : i.isObj = true := by
  cases i <;> simp_all [hasTitleKey, JValue.isObj]

theorem addRecentAll_fold :
    ∀ (infos : List JValue) (self : ConfigManager) (L : List JValue),
      recentState self L → (∀ p ∈ L, p.isObj = true) →
      (∀ i ∈ infos, i.isObj = true) →
      ∃ self', addRecentAll self infos = some self' ∧
        recentState self'
          (infos.foldl (fun acc i =>
            (i :: acc.filter fun y => titleVal y != titleVal i).take 10) L)
  | [], self, L, hst, _, _ => ⟨self, rfl, hst⟩
  | info :: rest, self, L, hst, hL, hinfos => by
    obtain ⟨self1, hrun, hst1⟩ := add_recent_project_step self L info hst hL
      (hinfos info (List.mem_cons_self info rest))
    have hL1 : ∀ p ∈ (info :: L.filter fun y => titleVal y != titleVal info).take 10,
        p.isObj = true := by
      intro p hp
      have hp' := List.take_subset 10 _ hp
      rcases List.mem_cons.mp hp' with h | h
      · exact h ▸ hinfos info (List.mem_cons_self info rest)
      · exact hL p (List.mem_of_mem_filter h)
    obtain ⟨self', hrun', hst'⟩ := addRecentAll_fold rest self1 _ hst1 hL1
      (fun i hi => hinfos i (List.mem_cons_of_mem _ hi))
    exact ⟨self', by simp only [addRecentAll, hrun, hrun'], by simpa using hst'⟩

theorem dedupByTitle_pairwise :
    ∀ l : List JValue,
      (dedupByTitle l).Pairwise fun a b => titleVal a ≠ titleVal b
  | [] => List.Pairwise.nil
  | x :: xs => by
    simp only [dedupByTitle]
    refine List.Pairwise.cons ?_ ((dedupByTitle_pairwise xs).filter _)
    intro y hy
    have := List.of_mem_filter hy
    simp only [bne_iff_ne, ne_eq] at this
    exact fun hc => this hc.symm

theorem countP_title_le_one (t : JValue) :
    ∀ D : List JValue,
      D.Pairwise (fun a b => titleVal a ≠ titleVal b) →
      D.countP (fun y => titleVal y == t) ≤ 1
  | [], _ => by simp
  | x :: D, hpw => by
    obtain ⟨hx, hD⟩ := List.pairwise_cons.mp hpw
    rw [List.countP_cons]
    by_cases hxt : (titleVal x == t) = true
    · have ht : t = titleVal x := (beq_iff_eq.mp hxt).symm
      have hzero : D.countP (fun y => titleVal y == t) = 0 := by
        rw [List.countP_eq_zero]
        intro y hy
        subst ht
        simp only [beq_iff_eq]
        exact fun hc => hx y hy hc.symm
      simp [hxt, hzero]
    · simp only [hxt, if_false]
      simpa using countP_title_le_one t D hD

theorem take_filter_take {α : Type} (p : α → Bool) :
    ∀ (D : List α) (n : Nat),
      D.countP (fun x => !p x) ≤ 1 →
      ((D.take n).filter p).take (n - 1) = (D.filter p).take (n - 1)
  | [], _, _ => by simp
  | x :: D, 0, _ => by simp
  | x :: D, n + 1, hcnt => by
    rw [List.countP_cons] at hcnt
    by_cases hx : p x = true
    · have hcnt' : D.countP (fun x => !p x) ≤ 1 := by
        by_cases hnx : (!p x) = true
        · simp [hx] at hnx
        · simp only [hnx, if_false] at hcnt
          omega
      simp only [List.take_succ_cons, List.filter_cons_of_pos hx,
        Nat.add_sub_cancel]
      cases n with
      | zero => simp
      | succ m =>
        rw [List.take_succ_cons, List.take_succ_cons]
        have := take_filter_take p D (m + 1) hcnt'
        rw [Nat.add_sub_cancel] at this
        rw [this]
    · have hnx : (!p x) = true := by simp [hx]
      simp only [hnx, if_pos] at hcnt
      have hzero : D.countP (fun x => !p x) = 0 := by omega
      have hall : ∀ a ∈ D, p a = true := by
        intro a ha
        have := (List.countP_eq_zero).mp hzero a ha
        simpa using this
      have hfD : D.filter p = D := List.filter_eq_self.mpr hall
      have hfDt : (D.take n).filter p = D.take n :=
        List.filter_eq_self.mpr fun a ha => hall a (List.take_subset n D ha)
      rw [Bool.not_eq_true] at hx
      simp only [List.take_succ_cons, List.filter_cons, hx, Bool.false_eq_true,
        if_false, Nat.add_sub_cancel, hfD, hfDt]
      rw [List.take_take]
      simp [Nat.min_def]

theorem foldr_recent_eq_dedup :
    ∀ rs : List JValue,
      rs.foldr (fun i acc =>
        (i :: acc.filter fun y => titleVal y != titleVal i).take 10) []
        = (dedupByTitle rs).take 10
  | [] => rfl
  | i :: rs => by
    simp only [List.foldr_cons, foldr_recent_eq_dedup rs, dedupByTitle]
    have h10 : (10 : Nat) = 9 + 1 := rfl
    rw [h10, List.take_succ_cons, List.take_succ_cons]
    congr 1
    have hcnt : (dedupByTitle rs).countP
        (fun y => !(titleVal y != titleVal i)) ≤ 1 := by
      have heq : (fun y : JValue => !(titleVal y != titleVal i))
          = fun y => titleVal y == titleVal i := by
        funext y
        simp [bne]
      rw [heq]
      exact countP_title_le_one (titleVal i) (dedupByTitle rs) (dedupByTitle_pairwise rs)
    have hmain := take_filter_take (fun y => titleVal y != titleVal i)
      (dedupByTitle rs) (9 + 1) hcnt
    simp only [Nat.add_sub_cancel] at hmain
    exact hmain

/-- C4: after any sequence of `add_recent_project` calls (on records
that each are mappings with a `"title"` key) starting from the freshly
constructed store, every call succeeds and the stored `recent_projects`
list is exactly the 10 most recently added records, keeping for each
title only its most recent record, newest first — so it has no two
entries with the same title, its length is at most 10, re-adding a
title removes the old entry and the newest record sits at index 0. -/
theorem add_recent_projects_spec (home : String) (infos : List JValue)
    (h : ∀ i ∈ infos, hasTitleKey i = true) :
    ∃ self', addRecentAll (freshConfig home) infos = some self' ∧
      getPath self'.local_config ["user_preferences", "recent_projects"]
        = some (.arr ((dedupByTitle infos.reverse).take 10)) ∧
      ((dedupByTitle infos.reverse).take 10).Pairwise
        (fun a b => titleVal a ≠ titleVal b) ∧
      ((dedupByTitle infos.reverse).take 10).length ≤ 10 := by
  have hfresh : recentState (freshConfig home) [] :=
    ⟨default_local_fields home,
     [("last_used_region", .null), ("last_save_folder", .null),
      ("recent_projects", .arr [])], rfl, rfl, rfl⟩
  obtain ⟨self', hrun, hst⟩ := addRecentAll_fold infos (freshConfig home) [] hfresh
    (by simp) (fun i hi => hasTitleKey_isObj (h i hi))
  have hfold : infos.foldl (fun acc i =>
      (i :: acc.filter fun y => titleVal y != titleVal i).take 10) []
      = (dedupByTitle infos.reverse).take 10 := by
    have h1 := List.foldl_reverse
      (l := infos.reverse)
      (f := fun acc i => (i :: acc.filter fun y => titleVal y != titleVal i).take 10)
      (b := [])
    rw [List.reverse_reverse] at h1
    rw [h1, foldr_recent_eq_dedup]
  rw [hfold] at hst
  obtain ⟨lf, uf, h1, h2, h3⟩ := hst
  refine ⟨self', hrun, ?_, ?_, ?_⟩
  · rw [h1]
    simp only [getPath, h2, h3]
  · exact List.Pairwise.sublist (List.take_sublist _ _) (dedupByTitle_pairwise _)
  · exact List.length_take_le 10 (dedupByTitle infos.reverse)

/-- Witness for `add_recent_projects_spec`: adding X (payload 1), Y,
then X again (payload 2) keeps one X entry, with the second payload, at
index 0. -/
theorem add_recent_projects_spec_witness :
    ∃ self', addRecentAll (freshConfig "H")
        [.obj [("title", .str "X"), ("pages", .num 1)],
         .obj [("title", .str "Y")],
         .obj [("title", .str "X"), ("pages", .num 2)]] = some self' ∧
      getPath self'.local_config ["user_preferences", "recent_projects"]
        = some (.arr ((dedupByTitle
            ([.obj [("title", .str "X"), ("pages", .num 1)],
              .obj [("title", .str "Y")],
              .obj [("title", .str "X"), ("pages", .num 2)]] : List JValue).reverse).take 10)) ∧
      ((dedupByTitle
          ([.obj [("title", .str "X"), ("pages", .num 1)],
            .obj [("title", .str "Y")],
            .obj [("title", .str "X"), ("pages", .num 2)]] : List JValue).reverse).take 10).Pairwise
        (fun a b => titleVal a ≠ titleVal b) ∧
      ((dedupByTitle
          ([.obj [("title", .str "X"), ("pages", .num 1)],
            .obj [("title", .str "Y")],
            .obj [("title", .str "X"), ("pages", .num 2)]] : List JValue).reverse).take 10).length
        ≤ 10 :=
  add_recent_projects_spec "H"
    [.obj [("title", .str "X"), ("pages", .num 1)],
     .obj [("title", .str "Y")],
     .obj [("title", .str "X"), ("pages", .num 2)]] (by decide)

theorem splitlinesCore_cons (c : Char) (cs : List Char) :
    splitlinesCore (c :: cs) =
      if c = '\n' then [] :: splitlinesCore cs
      else
        match splitlinesCore cs with
        | [] => [[c]]
        | l :: ls => (c :: l) :: ls := rfl

theorem splitlinesCore_ne_nil : ∀ cs : List Char, cs ≠ [] → splitlinesCore cs ≠ []
  | [], h => absurd rfl h
  | c :: cs, _ => by
    rw [splitlinesCore_cons]
    by_cases hc : c = '\n'
    · simp [hc]
    · rw [if_neg hc]
      cases splitlinesCore cs <;> simp

theorem splitlinesCore_append_cons :
    ∀ cs ds : List Char,
      splitlinesCore (cs ++ '\n' :: ds)
        = splitlinesCore (cs ++ ['\n']) ++ splitlinesCore ds
  | [], ds => by
    rw [List.nil_append, List.nil_append, splitlinesCore_cons]
    simp [splitlinesCore]
  | c :: cs, ds => by
    rw [List.cons_append, List.cons_append, splitlinesCore_cons, splitlinesCore_cons,
      splitlinesCore_append_cons cs ds]
    by_cases hc : c = '\n'
    · rw [if_pos hc, if_pos hc]
      rfl
    · rw [if_neg hc, if_neg hc]
      have hne : splitlinesCore (cs ++ ['\n']) ≠ [] :=
        splitlinesCore_ne_nil _ (by simp)
      cases hsp : splitlinesCore (cs ++ ['\n']) with
      | nil => exact absurd hsp hne
      | cons l ls => rfl

/-- The text is empty or its last line is empty: appending lines adds
no separating blank line in the source's `.gitignore` logic. -/
def endsNLorEmpty : List Char → Bool
  | [] => true
  | [c] => c = '\n'
  | _ :: c :: rest => endsNLorEmpty (c :: rest)

theorem splitlinesCore_append_nl :
    ∀ cs : List Char,
      splitlinesCore (cs ++ ['\n'])
        = splitlinesCore cs ++ (if endsNLorEmpty cs then [[]] else [])
  | [] => by simp [splitlinesCore, endsNLorEmpty]
  | [c] => by
    by_cases hc : c = '\n'
    · subst hc
      decide
    · rw [show ([c] ++ ['\n']) = c :: '\n' :: [] from rfl,
        splitlinesCore_cons, if_neg hc]
      have h2 : endsNLorEmpty [c] = false := by simp [endsNLorEmpty, hc]
      rw [h2]
      have h3 : splitlinesCore [c] = [[c]] := by
        rw [splitlinesCore_cons, if_neg hc]
        rfl
      rw [h3]
      rfl
  | c :: c' :: rest => by
    have ih := splitlinesCore_append_nl (c' :: rest)
    rw [List.cons_append, splitlinesCore_cons, splitlinesCore_cons, ih,
      show endsNLorEmpty (c :: c' :: rest) = endsNLorEmpty (c' :: rest) from rfl]
    by_cases hc : c = '\n'
    · rw [if_pos hc, if_pos hc]
      rfl
    · rw [if_neg hc, if_neg hc]
      have hne := splitlinesCore_ne_nil (c' :: rest) (by simp)
      cases hsp : splitlinesCore (c' :: rest) with
      | nil => exact absurd hsp hne
      | cons l ls => rfl

theorem exists_append_nl_of_getLast_blank :
    ∀ cs : List Char, (splitlinesCore cs).getLast? = some [] →
      ∃ cs', cs = cs' ++ ['\n']
  | [], h => by simp [splitlinesCore] at h
  | [c], h => by
    by_cases hc : c = '\n'
    · exact ⟨[], by simp [hc]⟩
    · rw [splitlinesCore_cons, if_neg hc] at h
      simp [splitlinesCore] at h
  | c :: c' :: rest, h => by
    have hne := splitlinesCore_ne_nil (c' :: rest) (by simp)
    rw [splitlinesCore_cons] at h
    by_cases hc : c = '\n'
    · rw [if_pos hc] at h
      cases hsp : splitlinesCore (c' :: rest) with
      | nil => exact absurd hsp hne
      | cons l ls =>
        rw [hsp, List.getLast?_cons_cons] at h
        obtain ⟨cs', hcs'⟩ := exists_append_nl_of_getLast_blank (c' :: rest)
          (by rw [hsp]; exact h)
        exact ⟨c :: cs', by simp [hcs']⟩
    · rw [if_neg hc] at h
      cases hsp : splitlinesCore (c' :: rest) with
      | nil => exact absurd hsp hne
      | cons l ls =>
        rw [hsp] at h
        cases ls with
        | nil => simp at h
        | cons l2 ls2 =>
          rw [List.getLast?_cons_cons] at h
          obtain ⟨cs', hcs'⟩ := exists_append_nl_of_getLast_blank (c' :: rest)
            (by rw [hsp, List.getLast?_cons_cons]; exact h)
          exact ⟨c :: cs', by simp [hcs']⟩

theorem splitlinesCore_line_append :
    ∀ (xs ys : List Char), '\n' ∉ xs →
      splitlinesCore (xs ++ '\n' :: ys) = xs :: splitlinesCore ys
  | [], ys, _ => by
    rw [List.nil_append, splitlinesCore_cons]
    simp
  | x :: xs, ys, hx => by
    have hxn : x ≠ '\n' := fun hc => hx (hc ▸ List.mem_cons_self x xs)
    have hxs : '\n' ∉ xs := fun hc => hx (List.mem_cons_of_mem _ hc)
    rw [List.cons_append, splitlinesCore_cons, if_neg hxn,
      splitlinesCore_line_append xs ys hxs]

theorem str_data_append (s t : String) : (s ++ t).data = s.data ++ t.data := rfl

theorem splitlinesCore_block :
    ∀ L : List String, L ≠ [] → (∀ l ∈ L, '\n' ∉ l.data) →
      splitlinesCore ((pyJoin "\n" L ++ "\n").data) = L.map String.data
  | [], h, _ => absurd rfl h
  | [x], _, hnl => by
    have hdata : (pyJoin "\n" [x] ++ "\n").data = x.data ++ '\n' :: [] := rfl
    rw [hdata, splitlinesCore_line_append x.data [] (hnl x (by simp))]
    rfl
  | x :: y :: rest, _, hnl => by
    have hdata : (pyJoin "\n" (x :: y :: rest) ++ "\n").data
        = x.data ++ '\n' :: (pyJoin "\n" (y :: rest) ++ "\n").data := by
      have h1 : pyJoin "\n" (x :: y :: rest) = x ++ "\n" ++ pyJoin "\n" (y :: rest) := rfl
      rw [h1, str_data_append, str_data_append, str_data_append, str_data_append]
      have h2 : "\n".data = ['\n'] := rfl
      rw [h2]
      simp [List.append_assoc]
    rw [hdata, splitlinesCore_line_append _ _ (hnl x (by simp)),
      splitlinesCore_block (y :: rest) (by simp)
        (fun l hl => hnl l (List.mem_cons_of_mem _ hl))]
    rfl

theorem getLast?_eq_none_imp {α : Type} : ∀ l : List α, l.getLast? = none → l = []
  | [], _ => rfl
  | a :: as, h => by
    cases as with
    | nil => simp at h
    | cons b bs =>
      rw [List.getLast?_cons_cons] at h
      exact absurd (getLast?_eq_none_imp (b :: bs) h) (by simp)

theorem getLast?_map_mk :
    ∀ A : List (List Char),
      ((A.map fun l => (⟨l⟩ : String)).getLast?)
        = A.getLast?.map fun l => (⟨l⟩ : String)
  | [] => rfl
  | [a] => rfl
  | a :: b :: rest => by
    rw [List.map_cons, List.map_cons, List.getLast?_cons_cons, List.getLast?_cons_cons]
    have hrec := getLast?_map_mk (b :: rest)
    rw [List.map_cons] at hrec
    exact hrec

theorem map_mk_map_data (L : List String) :
    ((L.map String.data).map fun cs => (⟨cs⟩ : String)) = L := by
  rw [List.map_map]
  have h : ((fun cs => (⟨cs⟩ : String)) ∘ String.data) = id := funext fun s => rfl
  rw [h, List.map_id]

theorem map_mk_comp_data (L : List String) :
    (L.map ((fun cs => (⟨cs⟩ : String)) ∘ String.data)) = L := by
  have h : ((fun cs => (⟨cs⟩ : String)) ∘ String.data) = id := funext fun s => rfl
  rw [h, List.map_id]

theorem create_gitignore_of_nil (old : String)
    (h : entries_to_add.filter
      (fun e => decide (e ∉ pySplitlines old) && nonBlank e) = []) :
    create_gitignore old = old := by
  show (if (entries_to_add.filter fun entry =>
      decide (entry ∉ pySplitlines old) && nonBlank entry).isEmpty then old else _) = old
  rw [h]
  rfl

theorem create_gitignore_unfold (old : String) (tw : List String) (sep : String)
    (htw_eq : entries_to_add.filter
      (fun e => decide (e ∉ pySplitlines old) && nonBlank e) = tw)
    (htw : tw ≠ [])
    (hsep : sep = (match (pySplitlines old).getLast? with
      | some l => if l ≠ "" then "\n" else ""
      | none => "")) :
    create_gitignore old = old ++ sep ++ pyJoin "\n" tw ++ "\n" := by
  have hne : (entries_to_add.filter
      (fun e => decide (e ∉ pySplitlines old) && nonBlank e)).isEmpty = false := by
    rw [htw_eq]
    cases tw with
    | nil => exact absurd rfl htw
    | cons a as => rfl
  show (if (entries_to_add.filter fun entry =>
      decide (entry ∉ pySplitlines old) && nonBlank entry).isEmpty then old
    else old ++ (match (pySplitlines old).getLast? with
      | some l => if l ≠ "" then "\n" else ""
      | none => "") ++ pyJoin "\n" (entries_to_add.filter fun entry =>
        decide (entry ∉ pySplitlines old) && nonBlank entry) ++ "\n") = _
  rw [hne, htw_eq, ← hsep]
  rfl

theorem create_gitignore_lines (old : String) (tw : List String)
    (htw_eq : entries_to_add.filter
      (fun e => decide (e ∉ pySplitlines old) && nonBlank e) = tw)
    (htw : tw ≠ []) :
    ∃ mid, (mid = [] ∨ mid = [""]) ∧
      pySplitlines (create_gitignore old) = pySplitlines old ++ mid ++ tw := by
  have hnl : ∀ e ∈ tw, '\n' ∉ e.data := by
    intro e he
    rw [← htw_eq] at he
    exact (by decide : ∀ e ∈ entries_to_add, '\n' ∉ e.data) e (List.mem_of_mem_filter he)
  have hblock := splitlinesCore_block tw htw hnl
  cases hlast : (pySplitlines old).getLast? with
  | none =>
    have hnil : pySplitlines old = [] := getLast?_eq_none_imp _ hlast
    have hdnil : old.data = [] := by
      by_contra hc
      exact splitlinesCore_ne_nil old.data hc
        (List.map_eq_nil_iff.mp (by unfold pySplitlines at hnil; exact hnil))
    rw [create_gitignore_unfold old tw "" htw_eq htw (by rw [hlast])]
    refine ⟨[], Or.inl rfl, ?_⟩
    rw [hnil]
    unfold pySplitlines
    have hdata : (old ++ "" ++ pyJoin "\n" tw ++ "\n").data
        = (pyJoin "\n" tw ++ "\n").data := by
      rw [str_data_append, str_data_append, str_data_append, hdnil]
      simp
    rw [hdata, hblock, map_mk_map_data]
    simp
  | some l =>
    by_cases hl : l ≠ ""
    · rw [create_gitignore_unfold old tw "\n" htw_eq htw (by rw [hlast]; simp [hl])]
      refine ⟨(if endsNLorEmpty old.data then [""] else []), ?_, ?_⟩
      · by_cases h : endsNLorEmpty old.data <;> simp [h]
      · unfold pySplitlines
        have hdata : (old ++ "\n" ++ pyJoin "\n" tw ++ "\n").data
            = old.data ++ '\n' :: (pyJoin "\n" tw ++ "\n").data := by
          rw [str_data_append, str_data_append, str_data_append]
          rw [show ("\n" : String).data = ['\n'] from rfl]
          rw [show (pyJoin "\n" tw ++ "\n").data
            = (pyJoin "\n" tw).data ++ ['\n'] from rfl]
          simp [List.append_assoc]
        rw [hdata, splitlinesCore_append_cons, splitlinesCore_append_nl, hblock]
        by_cases h : endsNLorEmpty old.data <;>
          simp [h, List.map_append, map_mk_map_data, map_mk_comp_data]
    · rw [not_not] at hl
      subst hl
      have hA : (splitlinesCore old.data).getLast? = some [] := by
        have hm : ((splitlinesCore old.data).map fun cs => (⟨cs⟩ : String)).getLast?
            = some "" := hlast
        rw [getLast?_map_mk] at hm
        cases hg : (splitlinesCore old.data).getLast? with
        | none => rw [hg] at hm; exact absurd hm (by simp)
        | some x =>
          rw [hg] at hm
          simp only [Option.map_some', Option.some.injEq] at hm
          have : x = [] := by
            have := congrArg String.data hm
            exact this
          rw [this]
      obtain ⟨cs', hcs'⟩ := exists_append_nl_of_getLast_blank old.data hA
      rw [create_gitignore_unfold old tw "" htw_eq htw (by rw [hlast]; simp)]
      refine ⟨[], Or.inl rfl, ?_⟩
      unfold pySplitlines
      have hdata : (old ++ "" ++ pyJoin "\n" tw ++ "\n").data
          = cs' ++ '\n' :: (pyJoin "\n" tw ++ "\n").data := by
        rw [str_data_append, str_data_append, str_data_append, hcs']
        rw [show (pyJoin "\n" tw ++ "\n").data
          = (pyJoin "\n" tw).data ++ ['\n'] from rfl]
        simp [List.append_assoc]
      rw [hdata, splitlinesCore_append_cons, ← hcs', hblock]
      simp [List.map_append, map_mk_map_data, map_mk_comp_data]

theorem nonBlank_ne_empty {e : String} (h : nonBlank e = true) : e ≠ "" := by
  intro hc
  rw [hc] at h
  exact Bool.false_ne_true ((by rfl : nonBlank "" = false) ▸ h)

theorem count_entries_eq_one :
    ∀ e ∈ entries_to_add, nonBlank e = true → entries_to_add.count e = 1 := by
  decide

/-- C8 fails as stated: `create_gitignore` never removes lines already
in the file, so a `.gitignore` that already contains a fixed-block line
twice still contains it twice afterwards — the resulting file does have
duplicated lines from the fixed block. -/
theorem create_gitignore_keeps_existing_duplicates :
    (pySplitlines
        (create_gitignore "config.local.json\nconfig.local.json\n")).count
      "config.local.json" = 2 ∧
    "config.local.json" ∈ entries_to_add := by
  constructor
  · decide
  · decide

/-- C8 amended: `create_gitignore` appends only the non-blank fixed
lines not already present verbatim (plus at most one separating blank
line), a second run starting from the first run's output changes
nothing, and the run introduces no duplicate of a fixed-block line:
a missing line is appended exactly once and a present line is not
appended, so each non-blank fixed-block line occurs in the result
exactly as often as before, or exactly once if it was absent. -/
theorem create_gitignore_idempotent (old : String) :
    create_gitignore (create_gitignore old) = create_gitignore old ∧
    (∀ e ∈ entries_to_add, nonBlank e = true →
      (pySplitlines (create_gitignore old)).count e =
        if e ∈ pySplitlines old then (pySplitlines old).count e else 1) := by
  cases htw0 : entries_to_add.filter
      (fun e => decide (e ∉ pySplitlines old) && nonBlank e) with
  | nil =>
    have hnew : create_gitignore old = old := create_gitignore_of_nil old htw0
    constructor
    · rw [hnew, hnew]
    · intro e he hnb
      have hmem : e ∈ pySplitlines old := by
        have hp := (List.filter_eq_nil_iff.mp htw0) e he
        simp only [Bool.and_eq_true, decide_eq_true_eq, not_and] at hp
        by_contra hc
        exact hp hc hnb
      rw [hnew, if_pos hmem]
  | cons t ts =>
    obtain ⟨mid, hmid, hlines⟩ := create_gitignore_lines old (t :: ts) htw0 (by simp)
    have hmem_new : ∀ e ∈ entries_to_add, nonBlank e = true →
        e ∈ pySplitlines (create_gitignore old) := by
      intro e he hnb
      rw [hlines]
      by_cases hold : e ∈ pySplitlines old
      · exact List.mem_append_left _ (List.mem_append_left _ hold)
      · refine List.mem_append_right _ ?_
        rw [← htw0]
        exact List.mem_filter.mpr ⟨he, by simp [hold, hnb]⟩
    constructor
    · refine create_gitignore_of_nil _ ?_
      rw [List.filter_eq_nil_iff]
      intro e he
      simp only [Bool.and_eq_true, decide_eq_true_eq, not_and]
      intro hnotin hnb
      exact absurd (hmem_new e he hnb) hnotin
    · intro e he hnb
      rw [hlines, List.count_append, List.count_append]
      have hmid0 : mid.count e = 0 := by
        rcases hmid with h | h
        · rw [h]; rfl
        · rw [h, List.count_eq_zero]
          intro hc
          exact nonBlank_ne_empty hnb (List.mem_singleton.mp hc)
      by_cases hold : e ∈ pySplitlines old
      · have htw_no : (t :: ts).count e = 0 := by
          rw [List.count_eq_zero, ← htw0]
          intro hc
          have := (List.mem_filter.mp hc).2
          simp only [Bool.and_eq_true, decide_eq_true_eq] at this
          exact this.1 hold
        rw [hmid0, htw_no, if_pos hold]
        rfl
      · have hin_tw : e ∈ (t :: ts) := by
          rw [← htw0]
          exact List.mem_filter.mpr ⟨he, by simp [hold, hnb]⟩
        have h1 : 1 ≤ (t :: ts).count e := by
          by_contra hc
          have h0 : (t :: ts).count e = 0 := by omega
          exact (List.count_eq_zero.mp h0) hin_tw
        have h2 : (t :: ts).count e ≤ 1 := by
          calc (t :: ts).count e ≤ entries_to_add.count e := by
                rw [← htw0]
                exact (List.filter_sublist _).count_le e
            _ = 1 := count_entries_eq_one e he hnb
        have hcount : (t :: ts).count e = 1 := le_antisymm h2 h1
        have hold0 : (pySplitlines old).count e = 0 := List.count_eq_zero.mpr hold
        rw [hmid0, hcount, hold0, if_neg hold]

/-- Witness for `create_gitignore_idempotent` at the empty (absent)
`.gitignore`. -/
theorem create_gitignore_idempotent_witness :
    create_gitignore (create_gitignore "") = create_gitignore "" ∧
    (pySplitlines (create_gitignore "")).count "output.md" =
      (if "output.md" ∈ pySplitlines ("" : String)
        then (pySplitlines ("" : String)).count "output.md" else 1) :=
  ⟨(create_gitignore_idempotent "").1,
   (create_gitignore_idempotent "").2 "output.md" (by decide) (by decide)⟩
